import Mathlib

/-!
Verification of the selection-aware scanning and export pipeline of the
"carpeta-a-pdf-txt-csv" repository (source files `convertidor_gui.py` and
`convertidor_gui_pro.py`).

The Python functions are shallowly embedded as executable Lean definitions:
paths become lists of name segments, file bytes become `List Nat`, the
tkinter check-tree becomes an inductive tree of tri-states, and the
imperative mutation routines become pure tree transformers whose recursion
mirrors the call structure of the source.
-/

/-! ## Tri-state selection tree (CheckTreeDialog of both variants)

A node of the dialog's tree.  In the source every treeview item has an
entry in `self.checked` holding one of the strings `"checked"`,
`"unchecked"` or `"partial"`; `partialSt` embeds the string `"partial"`.
-/

inductive TState where
  | checked
  | unchecked
  | partialSt
deriving DecidableEq, Repr

/-- A treeview item together with its already-discovered children.  Items
with an empty child list are the leaves of the widget (files, or
directories for which no child rows exist); the propagation routines of
both dialogs (`_update_parents` / `_update_parents_visuals`) only ever
recompute items that are the parent of some row, so childless items behave
exactly like leaves. -/
inductive SelTree where
  | mk (st : TState) (children : List SelTree)

def SelTree.state : SelTree → TState
  | .mk st _ => st

def SelTree.children : SelTree → List SelTree
  | .mk _ cs => cs

/-- States of a list of sibling nodes, as read by the parent-update
routines (`[self.checked.get(c, "unchecked") for c in ...]`). -/
def statesOf (ts : List SelTree) : List TState :=
  ts.map SelTree.state

/-- `convertidor_gui.py` `_update_parents` (lines 298-315): a parent becomes
`checked` iff all children are `checked`, `unchecked` iff all are
`unchecked`, and `partial` otherwise. -/
def combineGui (states : List TState) : TState :=
  if states.all (fun s => s = .checked) then .checked
  else if states.all (fun s => s = .unchecked) then .unchecked
  else .partialSt

/-- `convertidor_gui_pro.py` `_update_parents_visuals` (lines 332-347): a
parent becomes `checked` iff all children are `checked` and `unchecked`
otherwise; this routine never assigns `partial`. -/
def comboPro (states : List TState) : TState :=
  if states.all (fun s => s = .checked) then .checked else .unchecked

/-- The flip performed by `_toggle_item` when no explicit target state is
given: `"unchecked" if current == "checked" else "checked"`. -/
def flip1 (st : TState) : TState :=
  if st = .checked then .unchecked else .checked

/-- `_toggle_item`'s effective new state: the explicit target (all call
sites pass `"checked"`/`"unchecked"`, embedded as `Option Bool`) or the
flip of the current state. -/
def resolveTarget (target : Option Bool) (st : TState) : TState :=
  match target with
  | some b => if b then .checked else .unchecked
  | none => flip1 st

mutual

/-- Force a node and every already-discovered descendant to one state —
the recursive child walk of `_toggle_item` in both variants. -/
def setAll (s : TState) : SelTree → SelTree
  | .mk _ cs => .mk s (setAllList s cs)

def setAllList (s : TState) : List SelTree → List SelTree
  | [] => []
  | c :: cs => setAll s c :: setAllList s cs

end

/-- `_toggle_item` followed by the bottom-up parent update, as one pure
transformer.  The path is the list of child indices from the dialog's root
item to the clicked item; `comb` is the parent-combination rule of the
variant (`combineGui` or `comboPro`).  The toggled node and all its
descendants receive the binary target state, and each ancestor on the way
back up is recomputed from its children's states exactly as
`_update_parents` / `_update_parents_visuals` do.  A path that leads to no
item leaves the tree unchanged (the source only ever toggles existing
iids). -/
def toggleAt (comb : List TState → TState) : List Nat → Option Bool → SelTree → SelTree
  | [], target, t => setAll (resolveTarget target t.state) t
  | i :: p, target, .mk st cs =>
    match cs.get? i with
    | none => .mk st cs
    | some c =>
      let cs2 := cs.set i (toggleAt comb p target c)
      .mk (comb (statesOf cs2)) cs2

mutual

/-- Decidable form of the §3 invariant for the combination rule `comb`:
every item that has children holds exactly the state `comb` computes from
them, and every childless item holds a binary state. -/
def consistentB (comb : List TState → TState) : SelTree → Bool
  | .mk st [] => st ≠ TState.partialSt
  | .mk st (c :: cs) =>
    (st = comb (statesOf (c :: cs))) && consistentListB comb (c :: cs)

def consistentListB (comb : List TState → TState) : List SelTree → Bool
  | [] => true
  | c :: cs => consistentB comb c && consistentListB comb cs

end

mutual

/-- No node anywhere in the tree holds `partial`. -/
def noPartialB : SelTree → Bool
  | .mk st cs => (st ≠ TState.partialSt) && noPartialListB cs

def noPartialListB : List SelTree → Bool
  | [] => true
  | c :: cs => noPartialB c && noPartialListB cs

end

mutual

/-- Phase one of `_invert_selection` (`convertidor_gui_pro.py` lines
363-368): every node's state is flipped independently, with
`update_logic=False` (no propagation yet). -/
def flipAll : SelTree → SelTree
  | .mk st cs => .mk (flip1 st) (flipAllList cs)

def flipAllList : List SelTree → List SelTree
  | [] => []
  | c :: cs => flipAll c :: flipAllList cs

end

mutual

/-- Phase two of `_invert_selection` and of `_select_all` /
`_deselect_all`: `_update_parents_visuals` is run for every item, whose
net effect is a bottom-up recomputation of every item that has children;
childless items keep their state. -/
def recomputeAll (comb : List TState → TState) : SelTree → SelTree
  | .mk st [] => .mk st []
  | .mk _ (c :: cs) =>
    let cs2 := recomputeAllList comb (c :: cs)
    .mk (comb (statesOf cs2)) cs2

def recomputeAllList (comb : List TState → TState) : List SelTree → List SelTree
  | [] => []
  | c :: cs => recomputeAll comb c :: recomputeAllList comb cs

end

/-- Net effect of `_check_all` (gui) / `_select_all` (pro): every item is
toggled to `checked` (each toggle also forces its descendants, and the
final parent updates see only checked children), so the whole tree ends
checked. -/
def selectAllOp (t : SelTree) : SelTree := setAll .checked t

/-- Net effect of `_uncheck_all` (gui) / `_deselect_all` (pro). -/
def deselectAllOp (t : SelTree) : SelTree := setAll .unchecked t

/-- Net effect of `_invert_selection` (pro only): flip every node, then
run the parent update over every item. -/
def invertOp (t : SelTree) : SelTree := recomputeAll comboPro (flipAll t)

/-! ## Paths and the scanner's inclusion test (`file_is_allowed`)

A filesystem path is embedded as the list of its name segments from the
root (`[]` is the filesystem root `/`).  `pathlib`'s
`f_abs.relative_to(s_abs)` succeeds exactly when `s_abs`'s segments are a
prefix of `f_abs`'s, and `s_abs in f_abs.parents` holds exactly when they
are a proper prefix.  Canonicalisation (`Path.resolve`, symlink-resolved
absolute form) and `Path.is_dir` depend on the filesystem, which is
embedded as a pair of functions. -/

structure FSView where
  resolve : List String → List String
  isDir : List String → Bool

/-- `convertidor_gui.py` `file_is_allowed` (lines 75-99): empty or absent
selection means "include everything"; otherwise the file is included if
some selected path resolves to the file itself, or is a directory whose
resolved form the resolved file path lies under (`relative_to` succeeds,
i.e. prefix, equality allowed).  The per-entry `try` around
`sel.resolve()` never fires in this model because `resolve` is total. -/
def file_is_allowed_gui (fs : FSView) (file : List String)
    (selected : Option (List (List String))) : Bool :=
  match selected with
  | none => true
  | some sel =>
    if sel.isEmpty then true
    else
      let fAbs := fs.resolve file
      sel.any fun s =>
        let sAbs := fs.resolve s
        fAbs == sAbs || (fs.isDir sAbs && sAbs.isPrefixOf fAbs)

/-- `convertidor_gui_pro.py` `file_is_allowed` (lines 42-49): the caller
(`scan_project`) has already resolved the selection; a file is included if
it equals a selected path or a selected path is a directory among
`f_abs.parents` (a proper prefix). -/
def file_is_allowed_pro (fs : FSView) (file : List String)
    (selectedResolved : Option (List (List String))) : Bool :=
  match selectedResolved with
  | none => true
  | some sel =>
    if sel.isEmpty then true
    else
      let fAbs := fs.resolve file
      sel.any fun s =>
        fAbs == s || (fs.isDir s && (s.isPrefixOf fAbs && s != fAbs))

/-! ## FilterSpec: `parse_exts` and `should_convert` (pro variant)

Extensions sets are embedded as lists; duplicates are irrelevant because
the code only tests membership and emptiness. -/

/-- Splitting a character list at a separator, with the semantics of
`str.split(sep)`: the empty input yields one empty field. -/
def splitOnChar (sep : Char) : List Char → List (List Char)
  | [] => [[]]
  | c :: rest =>
    let r := splitOnChar sep rest
    if c = sep then [] :: r
    else
      match r with
      | [] => [[c]]
      | h :: t => (c :: h) :: t

/-- The whitespace stripped by Python's `str.strip()` with no argument. -/
def isPySpace (c : Char) : Bool :=
  c = ' ' || c = '\t' || c = '\n' || c = '\r' ||
  c = Char.ofNat 0x0b || c = Char.ofNat 0x0c

/-- `str.strip()` over a character list. -/
def pyStripCL (cs : List Char) : List Char :=
  ((cs.dropWhile isPySpace).reverse.dropWhile isPySpace).reverse

/-- ASCII lower-casing of one character, as `str.lower()` performs on the
extension tokens involved here. -/
def charLower (c : Char) : Char :=
  if 65 ≤ c.toNat ∧ c.toNat ≤ 90 then Char.ofNat (c.toNat + 32) else c

/-- `str.lower()`. -/
def pyLower (s : String) : String :=
  String.mk (s.toList.map charLower)

/-- `PurePath.suffix` of CPython: the part of the final path component
from its last dot on, empty when the last dot is the first character or
the last one. -/
def pySuffix (s : String) : String :=
  let name := (splitOnChar '/' s.toList).getLastD []
  let dots := (List.range name.length).filter fun i => name.get? i = some '.'
  match dots.getLast? with
  | none => ""
  | some i => if 0 < i && i < name.length - 1 then String.mk (name.drop i) else ""

/-- Normalisation of one non-`!` token of `parse_exts`:
`"." + p.lstrip(".").lower()`. -/
def normTokenCL (p : List Char) : List Char :=
  '.' :: (p.dropWhile fun c => c = '.').map charLower

/-- `convertidor_gui_pro.py` `parse_exts` (lines 122-149).  `none` means
"convert everything".  A token starting with `!` contributes an exclusion
extension, any other token an inclusion extension; tokens are normalised
to one leading dot and lower case.  Python's sets are embedded as lists:
only membership and emptiness are ever consulted, so duplicates are
irrelevant. -/
def parse_exts (spec : String) : Option (List String × List String) :=
  let cs := spec.toList
  if cs = [] ||
      (pyStripCL cs = ['*'] || pyStripCL cs = "todos".toList ||
        pyStripCL cs = "TODOS".toList) then
    none
  else
    let parts := ((splitOnChar ',' cs).map pyStripCL).filter fun p => p ≠ []
    let inc := (parts.filter fun p => p.head? ≠ some '!').map
      fun p => String.mk (normTokenCL p)
    let exc := (parts.filter fun p => p.head? = some '!').map
      fun p => String.mk (normTokenCL (p.drop 1))
    if inc = [] ∧ exc = [] then none else some (inc, exc)

/-- `should_convert` inside `export_txt` of `convertidor_gui_pro.py`
(lines 97-108): with no filter everything converts; otherwise a non-empty
include set must contain the extension, and the exclude set must not. -/
def should_convert (ext_filter : Option (List String × List String))
    (rel_path : String) : Bool :=
  match ext_filter with
  | none => true
  | some (includes, excludes) =>
    let ext := pyLower (pySuffix rel_path)
    if includes ≠ [] ∧ ext ∉ includes then false
    else if ext ∈ excludes then false
    else true

/-! ## Text reading policy (`read_text_file`, §4.4)

A file on disk is embedded as its byte sequence, with `none` standing for
an I/O error raised when the file is opened or read (the only way either
`read_text()` call can fail, since the Latin-1 decode itself accepts every
byte). -/

structure FileOnDisk where
  bytes : Option (List Nat)

/-- Strict UTF-8 decoding as performed by
`path.read_text(encoding="utf-8", errors="strict")`: standard table-driven
decoding that rejects continuation errors, overlong forms, surrogates and
code points past U+10FFFF. -/
def utf8Decode : List Nat → Option (List Char)
  | [] => some []
  | b :: rest =>
    if b < 0x80 then
      (utf8Decode rest).map fun cs => Char.ofNat b :: cs
    else if b < 0xC2 then none
    else if b < 0xE0 then
      match rest with
      | c1 :: rest1 =>
        if 0x80 ≤ c1 ∧ c1 < 0xC0 then
          (utf8Decode rest1).map fun cs =>
            Char.ofNat ((b - 0xC0) * 0x40 + (c1 - 0x80)) :: cs
        else none
      | [] => none
    else if b < 0xF0 then
      match rest with
      | c1 :: c2 :: rest2 =>
        if ((if b = 0xE0 then 0xA0 else 0x80) ≤ c1 ∧
            c1 ≤ (if b = 0xED then 0x9F else 0xBF)) ∧
            (0x80 ≤ c2 ∧ c2 < 0xC0) then
          (utf8Decode rest2).map fun cs =>
            Char.ofNat ((b - 0xE0) * 0x1000 + (c1 - 0x80) * 0x40 + (c2 - 0x80)) :: cs
        else none
      | _ => none
    else if b < 0xF5 then
      match rest with
      | c1 :: c2 :: c3 :: rest3 =>
        if ((if b = 0xF0 then 0x90 else 0x80) ≤ c1 ∧
            c1 ≤ (if b = 0xF4 then 0x8F else 0xBF)) ∧
            (0x80 ≤ c2 ∧ c2 < 0xC0) ∧ (0x80 ≤ c3 ∧ c3 < 0xC0) then
          (utf8Decode rest3).map fun cs =>
            Char.ofNat ((b - 0xF0) * 0x40000 + (c1 - 0x80) * 0x1000 +
              (c2 - 0x80) * 0x40 + (c3 - 0x80)) :: cs
        else none
      | _ => none
    else none

/-- Latin-1 decoding: every byte maps to the character of the same code
point, so it succeeds on every byte sequence (the `errors="ignore"`
argument in the source is therefore inert). -/
def latin1Decode (bs : List Nat) : List Char :=
  bs.map Char.ofNat

/-- Universal-newline translation performed by text-mode reading
(`Path.read_text` opens with `newline=None`): `\r\n` and lone `\r` become
`\n`. -/
def translateNewlines : List Char → List Char
  | [] => []
  | '\r' :: '\n' :: rest => '\n' :: translateNewlines rest
  | '\r' :: rest => '\n' :: translateNewlines rest
  | c :: rest => c :: translateNewlines rest

/-- The line boundary characters of `str.splitlines`. -/
def isLineBreak (c : Char) : Bool :=
  c = '\n' || c = '\r' || c = Char.ofNat 0x0b || c = Char.ofNat 0x0c ||
  c = Char.ofNat 0x1c || c = Char.ofNat 0x1d || c = Char.ofNat 0x1e ||
  c = Char.ofNat 0x85 || c = Char.ofNat 0x2028 || c = Char.ofNat 0x2029

/-- `str.splitlines(True)` over a character list: each produced chunk
keeps its terminator, `\r\n` counting as one terminator, and a final
unterminated chunk is kept. -/
def splitlinesCL (cs : List Char) (acc : List Char) : List (List Char) :=
  match cs, acc with
  | [], [] => []
  | [], acc => [acc.reverse]
  | '\r' :: '\n' :: rest, acc => (acc.reverse ++ ['\r', '\n']) :: splitlinesCL rest []
  | c :: rest, acc =>
    if isLineBreak c then (acc.reverse ++ [c]) :: splitlinesCL rest []
    else splitlinesCL rest (c :: acc)

/-- `decoded.splitlines(True)` on the text produced by a text-mode read:
newline translation followed by keepends split. -/
def pyTextLines (cs : List Char) : List String :=
  (splitlinesCL (translateNewlines cs) []).map String.mk

/-- `convertidor_gui.py` `read_text_file` (lines 63-70): strict UTF-8
first, Latin-1 on decode failure, and the empty list when even the
fallback read raises. -/
def read_text_file_gui (f : FileOnDisk) : List String :=
  match f.bytes with
  | some bs =>
    match utf8Decode bs with
    | some cs => pyTextLines cs
    | none => pyTextLines (latin1Decode bs)
  | none => []

/-- `convertidor_gui_pro.py` `read_text_file` (lines 33-40): same decode
cascade, but a total read failure yields one sentinel line. -/
def read_text_file_pro (f : FileOnDisk) : List String :=
  match f.bytes with
  | some bs =>
    match utf8Decode bs with
    | some cs => pyTextLines cs
    | none => pyTextLines (latin1Decode bs)
  | none => ["[ERROR: No se pudo leer el archivo]\n"]

/-! ## Binary detection (`is_text_file`, gui variant only) -/

/-- `TEXT_EXTS` of `convertidor_gui.py`. -/
def TEXT_EXTS : List String :=
  [".txt", ".md", ".csv", ".tsv",
   ".py", ".js", ".ts", ".json", ".yml", ".yaml", ".ini", ".cfg",
   ".log",
   ".html", ".css",
   ".xml",
   ".c", ".cpp", ".h", ".hpp", ".java", ".cs", ".go", ".rs", ".rb", ".php",
   ".swift",
   ".sh", ".bat", ".ps1", ".sql"]

/-- `convertidor_gui.py` `is_text_file` (lines 51-61): known text
extension, or the first 1024 bytes decode as strict UTF-8; an I/O error
while reading the chunk lands in the `except` branch and answers false. -/
def is_text_file (name : String) (f : FileOnDisk) : Bool :=
  if pyLower (pySuffix name) ∈ TEXT_EXTS then true
  else
    match f.bytes with
    | none => false
    | some bs => (utf8Decode (bs.take 1024)).isSome

/-- The content recorded for one allowed file by `scan_project` of
`convertidor_gui.py` (lines 121-126): real text for files passing
`is_text_file`, a single placeholder line otherwise. -/
def gui_scan_lines (name : String) (f : FileOnDisk) : List String :=
  if is_text_file name f then read_text_file_gui f
  else ["[BINARY FILE OMITTED: " ++ name ++ "]\n"]

/-- The content recorded for one allowed file by `scan_project` of
`convertidor_gui_pro.py` (line 72): every file is read as text, with no
binary detection at all. -/
def pro_scan_lines (f : FileOnDisk) : List String :=
  read_text_file_pro f

/-! ## The index tree (`arbol` dict of both `scan_project`s)

The recursive dict `carpeta → {..., "__files__": [names]}` is embedded as
an association list of subdirectories (insertion-ordered, like a Python
dict) plus the `__files__` list, which exists exactly when it is
non-empty. -/

inductive Arbol where
  | mk (dirs : List (String × Arbol)) (files : List String)

def Arbol.dirs : Arbol → List (String × Arbol)
  | .mk ds _ => ds

def Arbol.files : Arbol → List String
  | .mk _ fs => fs

/-- Dict lookup on the subdirectory association list. -/
def lookupDir (d : String) : List (String × Arbol) → Option Arbol
  | [] => none
  | (k, t) :: ks => if k = d then some t else lookupDir d ks

mutual

/-- The index insertion of both `scan_project`s: walk
`nodo.setdefault(parte, {})` along the directory parts, then
`nodo.setdefault("__files__", []).append(name)`. -/
def insertPath (p : List String) (name : String) (t : Arbol) : Arbol :=
  match p, t with
  | [], .mk ds fs => .mk ds (fs ++ [name])
  | d :: rest, .mk ds fs => .mk (updateDirs d rest name ds) fs
termination_by (p.length, 1, 0)

/-- `setdefault` on the subdirectory association list: descend into an
existing key or append a fresh one. -/
def updateDirs (d : String) (rest : List String) (name : String)
    (ks : List (String × Arbol)) : List (String × Arbol) :=
  match ks with
  | [] => [(d, insertPath rest name (.mk [] []))]
  | (k, t) :: ks' =>
    if k = d then (k, insertPath rest name t) :: ks'
    else (k, t) :: updateDirs d rest name ks'
termination_by (rest.length, 2, ks.length)

end

/-- Whether the file `name` under directory parts `p` appears in the index
tree. -/
def memFile (p : List String) (name : String) (t : Arbol) : Bool :=
  match p, t with
  | [], .mk _ fs => name ∈ fs
  | d :: rest, .mk ds _ =>
    match lookupDir d ds with
    | some t' => memFile rest name t'
    | none => false

/-! ## Shell-glob matching and the spec-modelled ignore/ghost scan

Neither source `scan_project` takes ignore patterns or an `includeGhosts`
flag; §4.1 and §4.3 of the specification describe them, so they are
modelled here from the specification's words and clearly marked as such. -/

/-- Collect the characters of a `[...]` set up to the closing bracket. -/
def takeClass (cs : List Char) : Option (List Char × List Char) :=
  match cs with
  | [] => none
  | ']' :: rest => some ([], rest)
  | c :: rest => (takeClass rest).map fun pr => (c :: pr.1, pr.2)

/-- Membership of a character in a glob character set, with `a-z`
ranges; a trailing `-` is literal. -/
def inClass (cs : List Char) (c : Char) : Bool :=
  match cs with
  | a :: '-' :: b :: rest => (a ≤ c && c ≤ b) || inClass rest c
  | a :: rest => a = c || inClass rest c
  | [] => false

/-- Parse the body of a glob set after `[`: optional `!` negation, a
leading `]` taken literally, and the set up to the closing `]`; `none`
when the set never closes (the `[` is then a literal). -/
def parseClass (cs : List Char) : Option (Bool × List Char × List Char) :=
  let (neg, body) :=
    match cs with
    | '!' :: r => (true, r)
    | r => (false, r)
  match body with
  | ']' :: rest =>
    (takeClass rest).map fun pr => (neg, ']' :: pr.1, pr.2)
  | _ =>
    (takeClass body).map fun pr => (neg, pr.1, pr.2)

/-- The recursion engine of `globMatch`: every step consumes at least one
pattern or subject character, so the combined length of both lists plus
one is always enough fuel and the zero-fuel branch is unreachable. -/
def globMatchF : Nat → List Char → List Char → Bool
  | 0, _, _ => false
  | fuel + 1, p, s =>
    match p, s with
    | [], [] => true
    | [], _ :: _ => false
    | '*' :: ps, [] => globMatchF fuel ps []
    | '*' :: ps, c :: s2 =>
      globMatchF fuel ps (c :: s2) || globMatchF fuel ('*' :: ps) s2
    | '?' :: ps, _ :: s2 => globMatchF fuel ps s2
    | '?' :: _, [] => false
    | '[' :: pafter, c :: s2 =>
      (match parseClass pafter with
       | some (neg, cls, rem) =>
         (if neg then !(inClass cls c) else inClass cls c) && globMatchF fuel rem s2
       | none => ('[' = c) && globMatchF fuel pafter s2)
    | '[' :: _, [] => false
    | pc :: ps, c :: s2 => (pc = c) && globMatchF fuel ps s2
    | _ :: _, [] => false

/-- Modelled from the spec: shell-style glob matching (`*`, `?`,
character classes) as used by `isIgnored`, which is absent from the
source; the semantics follows `fnmatch.fnmatchcase`. -/
def globMatch (p : List Char) (s : List Char) : Bool :=
  globMatchF (p.length + s.length + 1) p s

/-- Modelled from the spec: `isIgnored(path, baseDir, ignorePatterns)` —
true if the file's own name, or any ancestor directory name up to the
base directory, matches any glob pattern (§4.1).  `dirs` are the ancestor
directory names of the entry relative to the base. -/
def isIgnored (dirs : List String) (name : String) (patterns : List String) : Bool :=
  patterns.any fun pat =>
    globMatch pat.toList name.toList || dirs.any fun d => globMatch pat.toList d.toList

/-- Modelled from the spec: the Scanner's step 2b membership test over
base-relative paths — `selected = (selection is null) OR (entry's path,
or an ancestor directory, is a member of selection)` — with an empty set
treated as "no restriction" (§6). -/
def allowedRel (selection : Option (List (List String))) (p : List String) : Bool :=
  match selection with
  | none => true
  | some sel => if sel.isEmpty then true else sel.any fun s => s.isPrefixOf p

/-- One filesystem entry seen by a scan: ancestor directory names below
the base, the file's name, and its on-disk content. -/
abbrev ScanEntry := List String × String × FileOnDisk

/-- A produced content entry: directory parts, name and lines. -/
abbrev ContentEntry := List String × String × List String

/-- Modelled from the spec: one iteration of the §4.3 scan loop — skip
ignored entries entirely (step a), compute selection (step b), skip
unselected entries unless ghosts are requested (step c), insert into the
index (step d), and read content for selected entries with the §4.4
policy (step e). -/
def scanStep (selection : Option (List (List String))) (patterns : List String)
    (includeGhosts : Bool) (acc : Arbol × List ContentEntry) (e : ScanEntry) :
    Arbol × List ContentEntry :=
  let (dirs, name, f) := e
  if isIgnored dirs name patterns then acc
  else
    let sel := allowedRel selection (dirs ++ [name])
    if ¬ sel ∧ ¬ includeGhosts then acc
    else
      let t := insertPath dirs name acc.1
      if sel then (t, acc.2 ++ [(dirs, name, read_text_file_pro f)])
      else (t, acc.2)

/-- Modelled from the spec: the §4.3 scan over an enumerated list of file
entries, folding `scanStep` from an empty result. -/
def scanSpecGo (selection : Option (List (List String))) (patterns : List String)
    (includeGhosts : Bool) (acc : Arbol × List ContentEntry) :
    List ScanEntry → Arbol × List ContentEntry
  | [] => acc
  | e :: rest =>
    scanSpecGo selection patterns includeGhosts
      (scanStep selection patterns includeGhosts acc e) rest

/-- Modelled from the spec: `scan(baseDir, selection, ignorePatterns,
includeGhosts)` producing the index tree and the ordered content list. -/
def scanSpec (selection : Option (List (List String))) (patterns : List String)
    (includeGhosts : Bool) (entries : List ScanEntry) : Arbol × List ContentEntry :=
  scanSpecGo selection patterns includeGhosts (.mk [] [], []) entries

/-! ## Exporters -/

/-- `ln.rstrip("\n")`: remove every trailing newline character. -/
def rstripNl (s : String) : String :=
  String.mk ((s.toList.reverse.dropWhile fun c => c = '\n').reverse)

/-- `convertidor_gui.py` `export_csv` (lines 150-156) as the list of rows
handed to `csv.writer` (the writer stringifies the integer line number):
a header row, then one row per source line of each content entry,
numbered from 1, the line stripped of its trailing newline. -/
def export_csv_rows (files : List (String × List String)) : List (List String) :=
  ["path", "line_no", "content"] ::
    files.flatMap fun pr =>
      (pr.2.enumFrom 1).map fun iln => [pr.1, toString iln.1, rstripNl iln.2]

/-- Stable insertion into a `≤`-sorted list of strings. -/
def insertStr (a : String) : List String → List String
  | [] => [a]
  | b :: bs => if a ≤ b then a :: b :: bs else b :: insertStr a bs

/-- Stable insertion sort, matching Python's `sorted` on strings. -/
def sortStr : List String → List String
  | [] => []
  | a :: as => insertStr a (sortStr as)

def indentStr (n : Nat) : String :=
  String.mk (List.replicate n ' ')

mutual

/-- Depth of the index tree, used as recursion fuel for the sorted
renderer below. -/
def depthA : Arbol → Nat
  | .mk ds _ => 1 + depthL ds

def depthL : List (String × Arbol) → Nat
  | [] => 0
  | (_, t) :: ks => max (depthA t) (depthL ks)

end

/-- `_tree_txt` / `_draw_tree_pdf` of both variants: iterate the node's
keys in sorted order (the `__files__` key sorts among the directory
names), emitting `- f` lines for the sorted file list and `[k]/` plus the
rendered subtree, indented four further spaces, for a directory.  The
fuel argument is instantiated with the tree's depth, which the recursion
never exceeds, so no truncation occurs. -/
def treeLinesFuel : Nat → Nat → Arbol → List String
  | 0, _, _ => []
  | fuel + 1, indent, t =>
    (sortStr ((t.dirs.map Prod.fst) ++
        (if t.files.isEmpty then [] else ["__files__"]))).flatMap fun k =>
      if k = "__files__" then
        (sortStr t.files).map fun f => indentStr indent ++ "- " ++ f
      else
        match lookupDir k t.dirs with
        | some sub =>
          (indentStr indent ++ "[" ++ k ++ "]/") :: treeLinesFuel fuel (indent + 4) sub
        | none => []

/-- The rendered index-tree lines of `_tree_txt`. -/
def treeTxtLines (t : Arbol) : List String :=
  treeLinesFuel (depthA t) 0 t

/-- `convertidor_gui_pro.py` `export_txt` (lines 87-120) as the full text
written to the output file: the tree header, then per content entry
either the heading plus verbatim lines (when `should_convert` accepts the
path) or a heading annotated `[no convertido]`. -/
def export_txt_pro (arbol : Arbol) (files : List (String × List String))
    (ext_filter : Option (List String × List String)) : String :=
  "# Árbol de archivos\n" ++ String.intercalate "\n" (treeTxtLines arbol) ++
    "\n\n# Contenido de archivos\n\n" ++
    String.join (files.map fun pr =>
      if should_convert ext_filter pr.1 then
        "## " ++ pr.1 ++ "\n" ++ String.join pr.2 ++ "\n"
      else
        "## " ++ pr.1 ++ " [no convertido]\n")

/-- `ln.encode("latin-1", "replace").decode("latin-1")`: characters
outside Latin-1 become `?`. -/
def latin1Replace (s : String) : String :=
  String.mk (s.toList.map fun c => if c.toNat < 256 then c else '?')

/-- The sequence of `multi_cell` pages built by `export_pdf` of
`convertidor_gui.py` once FPDF is available: a title page with the base
path and the rendered tree, then one page per content entry with its
heading and Latin-1-replaced lines. -/
def buildPdf (base : String) (arbol : Arbol)
    (files : List (String × List String)) : List (List String) :=
  (("Resumen de archivos en:\n" ++ base ++ "\n") :: treeTxtLines arbol) ::
    files.map fun pr => (pr.1 ++ "\n") :: pr.2.map latin1Replace

/-- `convertidor_gui.py` `export_pdf` (lines 167-192): when the optional
`fpdf` import failed (`FPDF is None`), raise a `RuntimeError` before any
page or output file is produced; otherwise build the document. -/
def export_pdf (fpdfAvailable : Bool) (base : String) (arbol : Arbol)
    (files : List (String × List String)) : Except String (List (List String)) :=
  if ¬ fpdfAvailable then
    .error "Instala primero fpdf2 →  python -m pip install fpdf2"
  else
    .ok (buildPdf base arbol files)

/-- Output format selected by the radio buttons. -/
inductive Fmt where
  | pdf
  | txt
  | csv
deriving DecidableEq

def fmtExt : Fmt → String
  | .pdf => "pdf"
  | .txt => "txt"
  | .csv => "csv"

/-- ASCII upper-casing of one character, as `str.upper()` performs on the
format names involved here. -/
def charUpper (c : Char) : Char :=
  if 97 ≤ c.toNat ∧ c.toNat ≤ 122 then Char.ofNat (c.toNat - 32) else c

/-- `str.upper()`. -/
def pyUpper (s : String) : String :=
  String.mk (s.toList.map charUpper)

/-- Outcome of the worker's `_convert` in `convertidor_gui_pro.py`:
warning/notice log lines, the files written (name and content), and the
terminal messagebox `(kind, text)`. -/
structure ProConvertResult where
  avisos : List String
  written : List (String × String)
  terminal : String × String

/-- `convertidor_gui_pro.py` `_convert` (lines 674-712) after a scan
yielding `files`: an empty scan ends with a warning and writes nothing;
a TXT request writes `name.txt`; a PDF or CSV request logs that the
format is not implemented, writes a plain-text backup `name.txt`
instead, and still ends with the success message naming the requested
output path. -/
def pro_convert (fmt : Fmt) (name : String) (arbol : Arbol)
    (files : List (String × List String))
    (ext_filter : Option (List String × List String)) : ProConvertResult :=
  let output := name ++ "." ++ fmtExt fmt
  if files.isEmpty then
    ⟨[], [], ("showwarning", "No se encontraron archivos para convertir.")⟩
  else
    match fmt with
    | .txt =>
      ⟨[], [(output, export_txt_pro arbol files ext_filter)],
       ("showinfo", "Archivo generado:\n" ++ output)⟩
    | f =>
      ⟨["AVISO: La exportación a " ++ pyUpper (fmtExt f) ++ " no está implementada.",
        "-> Generando un archivo TXT de respaldo."],
       [(name ++ ".txt", export_txt_pro arbol files ext_filter)],
       ("showinfo", "Archivo generado:\n" ++ output)⟩

/-- Concrete filesystem view used by witnesses: identity resolution, with
`/sub` (and the root) as the only directories. -/
def demoFS : FSView :=
  ⟨fun p => p, fun p => decide (p = ["sub"] ∨ p = [])⟩

/-! # Theorems -/

/-! ## Selection-tree infrastructure -/

theorem SelTree.inductionOn (P : SelTree → Prop)
    (h : ∀ st cs, (∀ c ∈ cs, P c) → P (SelTree.mk st cs)) (t : SelTree) : P t := by
  have aux : ∀ (n : Nat) (t : SelTree), sizeOf t ≤ n → P t := by
    intro n
    induction n with
    | zero =>
      intro t ht
      cases t with
      | mk st cs =>
        have hs : sizeOf (SelTree.mk st cs) = 1 + sizeOf st + sizeOf cs := by
          simp [SelTree.mk.sizeOf_spec]
        omega
    | succ n ih =>
      intro t ht
      cases t with
      | mk st cs =>
        refine h st cs fun c hc => ih c ?_
        have h1 := List.sizeOf_lt_of_mem hc
        have hs : sizeOf (SelTree.mk st cs) = 1 + sizeOf st + sizeOf cs := by
          simp [SelTree.mk.sizeOf_spec]
        omega
  exact aux (sizeOf t) t (le_refl _)

theorem setAllList_eq_map (s : TState) (cs : List SelTree) :
    setAllList s cs = cs.map (setAll s) := by
  induction cs with
  | nil => simp [setAllList]
  | cons c cs ih => simp [setAllList, ih]

theorem state_setAll (s : TState) (t : SelTree) : (setAll s t).state = s := by
  cases t
  simp [setAll, SelTree.state]

theorem statesOf_setAllList (s : TState) (cs : List SelTree) :
    statesOf (setAllList s cs) = List.replicate cs.length s := by
  induction cs with
  | nil => simp [setAllList, statesOf]
  | cons c cs ih =>
    simp only [setAllList, statesOf, List.map_cons, List.length_cons,
      List.replicate_succ, state_setAll, List.cons.injEq, true_and]
    exact ih

theorem consistentListB_eq_all (comb : List TState → TState) (cs : List SelTree) :
    consistentListB comb cs = cs.all fun c => consistentB comb c := by
  induction cs with
  | nil => simp [consistentListB]
  | cons c cs ih => simp [consistentListB, ih]

theorem noPartialListB_eq_all (cs : List SelTree) :
    noPartialListB cs = cs.all fun c => noPartialB c := by
  induction cs with
  | nil => simp [noPartialListB]
  | cons c cs ih => simp [noPartialListB, ih]

theorem consistentB_mk_of_ne_nil (comb : List TState → TState) (st : TState)
    (cs : List SelTree) (h : cs ≠ []) :
    consistentB comb (.mk st cs) =
      ((st = comb (statesOf cs)) && cs.all fun c => consistentB comb c) := by
  cases cs with
  | nil => exact absurd rfl h
  | cons c cs => simp [consistentB, consistentListB_eq_all]

/-- Goodness of a parent-combination rule: on one or more identical
binary child states it returns that state.  Both variants' rules satisfy
it. -/
def CombGood (comb : List TState → TState) : Prop :=
  ∀ (n : Nat) (s : TState), s ≠ .partialSt → comb (List.replicate (n + 1) s) = s

theorem replicate_all_self (n : Nat) (s : TState) :
    (List.replicate n s).all (fun x => x = s) = true := by
  simp [List.all_eq_true, List.mem_replicate]

theorem combineGui_good : CombGood combineGui := by
  intro n s hs
  cases s with
  | checked => simp [combineGui, replicate_all_self]
  | unchecked =>
    have h1 : (List.replicate (n + 1) TState.unchecked).all
        (fun x => x = TState.checked) = false := by
      simp [List.replicate_succ]
    simp only [combineGui, h1]
    simp [replicate_all_self]
  | partialSt => exact absurd rfl hs

theorem comboPro_good : CombGood comboPro := by
  intro n s hs
  cases s with
  | checked => simp [comboPro, replicate_all_self]
  | unchecked =>
    have h1 : (List.replicate (n + 1) TState.unchecked).all
        (fun x => x = TState.checked) = false := by
      simp [List.replicate_succ]
    simp [comboPro, h1]
  | partialSt => exact absurd rfl hs

theorem resolveTarget_ne_partialSt (target : Option Bool) (st : TState) :
    resolveTarget target st ≠ TState.partialSt := by
  cases target with
  | some b => cases b <;> simp [resolveTarget]
  | none =>
    simp only [resolveTarget, flip1]
    split <;> simp

theorem consistentB_setAll (comb : List TState → TState) (hcomb : CombGood comb)
    (s : TState) (hs : s ≠ TState.partialSt) (t : SelTree) :
    consistentB comb (setAll s t) = true := by
  induction t using SelTree.inductionOn with
  | h st cs ih =>
    cases cs with
    | nil => simp [setAll, setAllList, consistentB, hs]
    | cons c cs' =>
      have hlist : setAllList s (c :: cs') ≠ [] := by
        simp [setAllList]
      have hstep : setAll s (SelTree.mk st (c :: cs')) =
          SelTree.mk s (setAllList s (c :: cs')) := by
        simp [setAll]
      rw [hstep, consistentB_mk_of_ne_nil comb s _ hlist, Bool.and_eq_true]
      constructor
      · have hrep : statesOf (setAllList s (c :: cs')) =
            List.replicate (cs'.length + 1) s := by
          simpa using statesOf_setAllList s (c :: cs')
        simp [hrep, hcomb cs'.length s hs]
      · rw [List.all_eq_true]
        intro x hx
        rw [setAllList_eq_map] at hx
        obtain ⟨c0, hc0, rfl⟩ := List.mem_map.mp hx
        exact ih c0 hc0

theorem mem_of_getElem?_eq_some {α : Type} {l : List α} {i : Nat} {a : α}
    (h : l[i]? = some a) : a ∈ l := by
  obtain ⟨hi, rfl⟩ := List.getElem?_eq_some.mp h
  exact List.getElem_mem hi

theorem consistentB_toggleAt (comb : List TState → TState) (hcomb : CombGood comb) :
    ∀ (p : List Nat) (target : Option Bool) (t : SelTree),
      consistentB comb t = true → consistentB comb (toggleAt comb p target t) = true := by
  intro p
  induction p with
  | nil =>
    intro target t _
    have h := resolveTarget_ne_partialSt target t.state
    have h2 : toggleAt comb [] target t = setAll (resolveTarget target t.state) t := by
      simp [toggleAt]
    rw [h2]
    exact consistentB_setAll comb hcomb _ h t
  | cons i p ih =>
    intro target t ht
    cases t with
    | mk st cs =>
      cases hg : cs[i]? with
      | none =>
        have h2 : toggleAt comb (i :: p) target (SelTree.mk st cs) = SelTree.mk st cs := by
          simp [toggleAt, hg]
        rw [h2]
        exact ht
      | some c =>
        have h2 : toggleAt comb (i :: p) target (SelTree.mk st cs) =
            SelTree.mk (comb (statesOf (cs.set i (toggleAt comb p target c))))
              (cs.set i (toggleAt comb p target c)) := by
          simp [toggleAt, hg]
        have hne : cs ≠ [] := by
          intro hnil
          rw [hnil] at hg
          simp at hg
        have hsetne : cs.set i (toggleAt comb p target c) ≠ [] := by
          intro hnil
          have hlen := congrArg List.length hnil
          rw [List.length_set] at hlen
          exact hne (List.eq_nil_of_length_eq_zero hlen)
        have hold : ∀ y ∈ cs, consistentB comb y = true := by
          have h3 := ht
          rw [consistentB_mk_of_ne_nil comb st cs hne, Bool.and_eq_true,
            List.all_eq_true] at h3
          exact h3.2
        rw [h2, consistentB_mk_of_ne_nil comb _ _ hsetne, Bool.and_eq_true]
        refine ⟨by simp, ?_⟩
        rw [List.all_eq_true]
        intro x hx
        rcases List.mem_or_eq_of_mem_set hx with hx1 | hx2
        · exact hold x hx1
        · rw [hx2]
          exact ih target c (hold c (mem_of_getElem?_eq_some hg))

theorem noPartialB_mk (st : TState) (cs : List SelTree) :
    noPartialB (.mk st cs) = ((st ≠ TState.partialSt) && cs.all fun c => noPartialB c) := by
  simp [noPartialB, noPartialListB_eq_all]

theorem noPartialB_setAll (s : TState) (hs : s ≠ TState.partialSt) (t : SelTree) :
    noPartialB (setAll s t) = true := by
  induction t using SelTree.inductionOn with
  | h st cs ih =>
    have hstep : setAll s (SelTree.mk st cs) = SelTree.mk s (setAllList s cs) := by
      simp [setAll]
    rw [hstep, noPartialB_mk, Bool.and_eq_true]
    refine ⟨by simp [hs], ?_⟩
    rw [List.all_eq_true]
    intro x hx
    rw [setAllList_eq_map] at hx
    obtain ⟨c0, hc0, rfl⟩ := List.mem_map.mp hx
    exact ih c0 hc0

theorem comboPro_ne_partialSt (states : List TState) :
    comboPro states ≠ TState.partialSt := by
  simp only [comboPro]
  split <;> simp

theorem flip1_ne_partialSt (st : TState) : flip1 st ≠ TState.partialSt := by
  simp only [flip1]
  split <;> simp

theorem noPartialB_toggleAt_pro :
    ∀ (p : List Nat) (target : Option Bool) (t : SelTree),
      noPartialB t = true → noPartialB (toggleAt comboPro p target t) = true := by
  intro p
  induction p with
  | nil =>
    intro target t _
    have h2 : toggleAt comboPro [] target t = setAll (resolveTarget target t.state) t := by
      simp [toggleAt]
    rw [h2]
    exact noPartialB_setAll _ (resolveTarget_ne_partialSt target t.state) t
  | cons i p ih =>
    intro target t ht
    cases t with
    | mk st cs =>
      cases hg : cs[i]? with
      | none =>
        have h2 : toggleAt comboPro (i :: p) target (SelTree.mk st cs) = SelTree.mk st cs := by
          simp [toggleAt, hg]
        rw [h2]
        exact ht
      | some c =>
        have h2 : toggleAt comboPro (i :: p) target (SelTree.mk st cs) =
            SelTree.mk (comboPro (statesOf (cs.set i (toggleAt comboPro p target c))))
              (cs.set i (toggleAt comboPro p target c)) := by
          simp [toggleAt, hg]
        have hold : ∀ y ∈ cs, noPartialB y = true := by
          have h3 := ht
          rw [noPartialB_mk, Bool.and_eq_true, List.all_eq_true] at h3
          exact h3.2
        rw [h2, noPartialB_mk, Bool.and_eq_true]
        refine ⟨by simp [comboPro_ne_partialSt], ?_⟩
        rw [List.all_eq_true]
        intro x hx
        rcases List.mem_or_eq_of_mem_set hx with hx1 | hx2
        · exact hold x hx1
        · rw [hx2]
          exact ih target c (hold c (mem_of_getElem?_eq_some hg))

theorem flipAllList_eq_map (cs : List SelTree) : flipAllList cs = cs.map flipAll := by
  induction cs with
  | nil => simp [flipAllList]
  | cons c cs ih => simp [flipAllList, ih]

theorem recomputeAllList_eq_map (comb : List TState → TState) (cs : List SelTree) :
    recomputeAllList comb cs = cs.map (recomputeAll comb) := by
  induction cs with
  | nil => simp [recomputeAllList]
  | cons c cs ih => simp [recomputeAllList, ih]

theorem noPartialB_flipAll (t : SelTree) : noPartialB (flipAll t) = true := by
  induction t using SelTree.inductionOn with
  | h st cs ih =>
    have hstep : flipAll (SelTree.mk st cs) = SelTree.mk (flip1 st) (flipAllList cs) := by
      simp [flipAll]
    rw [hstep, noPartialB_mk, Bool.and_eq_true]
    refine ⟨by simp [flip1_ne_partialSt], ?_⟩
    rw [List.all_eq_true]
    intro x hx
    rw [flipAllList_eq_map] at hx
    obtain ⟨c0, hc0, rfl⟩ := List.mem_map.mp hx
    exact ih c0 hc0

theorem consistentB_recomputeAll (comb : List TState → TState) (t : SelTree)
    (h : noPartialB t = true) : consistentB comb (recomputeAll comb t) = true := by
  induction t using SelTree.inductionOn with
  | h st cs ih =>
    cases cs with
    | nil =>
      have hstep : recomputeAll comb (SelTree.mk st []) = SelTree.mk st [] := by
        simp [recomputeAll]
      rw [hstep]
      rw [noPartialB_mk, Bool.and_eq_true] at h
      simpa [consistentB] using h.1
    | cons c cs' =>
      have hstep : recomputeAll comb (SelTree.mk st (c :: cs')) =
          SelTree.mk (comb (statesOf (recomputeAllList comb (c :: cs'))))
            (recomputeAllList comb (c :: cs')) := by
        simp [recomputeAll]
      have hne : recomputeAllList comb (c :: cs') ≠ [] := by
        simp [recomputeAllList]
      rw [noPartialB_mk, Bool.and_eq_true, List.all_eq_true] at h
      rw [hstep, consistentB_mk_of_ne_nil comb _ _ hne, Bool.and_eq_true]
      refine ⟨by simp, ?_⟩
      rw [List.all_eq_true]
      intro x hx
      rw [recomputeAllList_eq_map] at hx
      obtain ⟨c0, hc0, rfl⟩ := List.mem_map.mp hx
      exact ih c0 hc0 (h.2 c0 hc0)

theorem noPartialB_recomputeAll_pro (t : SelTree) (h : noPartialB t = true) :
    noPartialB (recomputeAll comboPro t) = true := by
  induction t using SelTree.inductionOn with
  | h st cs ih =>
    cases cs with
    | nil =>
      have hstep : recomputeAll comboPro (SelTree.mk st []) = SelTree.mk st [] := by
        simp [recomputeAll]
      rw [hstep]
      exact h
    | cons c cs' =>
      have hstep : recomputeAll comboPro (SelTree.mk st (c :: cs')) =
          SelTree.mk (comboPro (statesOf (recomputeAllList comboPro (c :: cs'))))
            (recomputeAllList comboPro (c :: cs')) := by
        simp [recomputeAll]
      rw [noPartialB_mk, Bool.and_eq_true, List.all_eq_true] at h
      rw [hstep, noPartialB_mk, Bool.and_eq_true]
      refine ⟨by simp [comboPro_ne_partialSt], ?_⟩
      rw [List.all_eq_true]
      intro x hx
      rw [recomputeAllList_eq_map] at hx
      obtain ⟨c0, hc0, rfl⟩ := List.mem_map.mp hx
      exact ih c0 hc0 (h.2 c0 hc0)

/-- C2 counterexample: in the pro variant, from the consistent all-unchecked
tree with one directory holding two file children, clicking the first child
(`_toggle_item` with no explicit state) leaves the directory `unchecked`
although its children are now mixed (`checked`/`unchecked`), so the claimed
"`partial` otherwise" case never happens: `_update_parents_visuals` of
`convertidor_gui_pro.py` has no `partial` branch. -/
theorem c2_partial_counterexample :
    (toggleAt comboPro [0] none
        (SelTree.mk .unchecked [SelTree.mk .unchecked [], SelTree.mk .unchecked []])).state =
      TState.unchecked ∧
    statesOf (toggleAt comboPro [0] none
        (SelTree.mk .unchecked [SelTree.mk .unchecked [], SelTree.mk .unchecked []])).children =
      [TState.checked, TState.unchecked] ∧
    TState.unchecked ≠ TState.partialSt := by
  have h : toggleAt comboPro [0] none
      (SelTree.mk .unchecked [SelTree.mk .unchecked [], SelTree.mk .unchecked []]) =
      SelTree.mk .unchecked [SelTree.mk .checked [], SelTree.mk .unchecked []] := by
    simp [toggleAt, setAll, setAllList, resolveTarget, flip1, comboPro, statesOf,
      SelTree.state, List.set]
  rw [h]
  refine ⟨rfl, rfl, by decide⟩

/-- C2 (amended): the §3 invariant — a directory is `checked` iff all its
discovered children are `checked`, `unchecked` iff all are `unchecked`,
`partial` otherwise, and leaves stay binary — is preserved by `toggle` and
established by select-all/deselect-all in the gui variant
(`_update_parents`), which has no invert operation.  In the pro variant
(`_update_parents_visuals`) the same propagation shape holds but with its
own rule — a directory becomes `checked` iff all children are `checked`
and `unchecked` otherwise — and no node ever holds `partial` after
toggle, select-all, deselect-all or invert. -/
theorem c2_tristate_amended :
    (∀ (p : List Nat) (target : Option Bool) (t : SelTree),
        consistentB combineGui t = true →
        consistentB combineGui (toggleAt combineGui p target t) = true) ∧
    (∀ t : SelTree, consistentB combineGui (selectAllOp t) = true) ∧
    (∀ t : SelTree, consistentB combineGui (deselectAllOp t) = true) ∧
    (∀ (p : List Nat) (target : Option Bool) (t : SelTree),
        consistentB comboPro t = true →
        consistentB comboPro (toggleAt comboPro p target t) = true) ∧
    (∀ (p : List Nat) (target : Option Bool) (t : SelTree),
        noPartialB t = true → noPartialB (toggleAt comboPro p target t) = true) ∧
    (∀ t : SelTree,
        noPartialB (selectAllOp t) = true ∧ noPartialB (deselectAllOp t) = true) ∧
    (∀ t : SelTree,
        noPartialB (invertOp t) = true ∧ consistentB comboPro (invertOp t) = true) := by
  refine ⟨?_, ?_, ?_, ?_, ?_, ?_, ?_⟩
  · exact fun p target t => consistentB_toggleAt combineGui combineGui_good p target t
  · exact fun t => consistentB_setAll combineGui combineGui_good .checked (by decide) t
  · exact fun t => consistentB_setAll combineGui combineGui_good .unchecked (by decide) t
  · exact fun p target t => consistentB_toggleAt comboPro comboPro_good p target t
  · exact fun p target t => noPartialB_toggleAt_pro p target t
  · exact fun t =>
      ⟨noPartialB_setAll .checked (by decide) t, noPartialB_setAll .unchecked (by decide) t⟩
  · exact fun t =>
      ⟨noPartialB_recomputeAll_pro (flipAll t) (noPartialB_flipAll t),
       consistentB_recomputeAll comboPro (flipAll t) (noPartialB_flipAll t)⟩

/-- Witness for `c2_tristate_amended` at a concrete consistent tree. -/
theorem c2_tristate_amended_witness :
    consistentB combineGui
      (toggleAt combineGui [0] none
        (SelTree.mk .unchecked [SelTree.mk .unchecked []])) = true :=
  c2_tristate_amended.1 [0] none
    (SelTree.mk .unchecked [SelTree.mk .unchecked []])
    (by simp [consistentB, consistentListB, combineGui, statesOf, SelTree.state])

/-- C1: in both variants the inclusion test accepts everything when the
selection is null or empty, and for a non-empty selection it accepts a
file exactly when some selection member's canonical form equals the
file's canonical form, or is a directory and a proper ancestor (proper
segment prefix) of it.  The pro variant receives the selection already
resolved by its caller `scan_project`, so it is applied to
`sel.map fs.resolve`. -/
theorem c1_inclusion_test (fs : FSView) (file : List String) :
    file_is_allowed_gui fs file none = true ∧
    file_is_allowed_pro fs file none = true ∧
    file_is_allowed_gui fs file (some []) = true ∧
    file_is_allowed_pro fs file (some []) = true ∧
    ∀ sel : List (List String), sel ≠ [] →
      ((file_is_allowed_gui fs file (some sel) = true ↔
        ∃ s ∈ sel, fs.resolve s = fs.resolve file ∨
          (fs.isDir (fs.resolve s) = true ∧ fs.resolve s <+: fs.resolve file ∧
            fs.resolve s ≠ fs.resolve file)) ∧
       (file_is_allowed_pro fs file (some (sel.map fs.resolve)) = true ↔
        ∃ s ∈ sel, fs.resolve s = fs.resolve file ∨
          (fs.isDir (fs.resolve s) = true ∧ fs.resolve s <+: fs.resolve file ∧
            fs.resolve s ≠ fs.resolve file))) := by
  refine ⟨rfl, rfl, rfl, rfl, ?_⟩
  intro sel hsel
  have hne : sel.isEmpty = false := by
    cases sel with
    | nil => exact absurd rfl hsel
    | cons a l => rfl
  constructor
  · have hrw : file_is_allowed_gui fs file (some sel) =
        sel.any fun s =>
          (fs.resolve file == fs.resolve s ||
            (fs.isDir (fs.resolve s) && (fs.resolve s).isPrefixOf (fs.resolve file))) := by
      simp [file_is_allowed_gui, hne]
    rw [hrw, List.any_eq_true]
    constructor
    · rintro ⟨s, hs, hpred⟩
      refine ⟨s, hs, ?_⟩
      simp only [Bool.or_eq_true, beq_iff_eq, Bool.and_eq_true,
        List.isPrefixOf_iff_prefix] at hpred
      rcases hpred with h1 | ⟨h2, h3⟩
      · exact Or.inl h1.symm
      · by_cases he : fs.resolve s = fs.resolve file
        · exact Or.inl he
        · exact Or.inr ⟨h2, h3, he⟩
    · rintro ⟨s, hs, hpred⟩
      refine ⟨s, hs, ?_⟩
      simp only [Bool.or_eq_true, beq_iff_eq, Bool.and_eq_true,
        List.isPrefixOf_iff_prefix]
      rcases hpred with h1 | ⟨h2, h3, _⟩
      · exact Or.inl h1.symm
      · exact Or.inr ⟨h2, h3⟩
  · have hne2 : (sel.map fs.resolve).isEmpty = false := by
      cases sel with
      | nil => exact absurd rfl hsel
      | cons a l => rfl
    have hrw : file_is_allowed_pro fs file (some (sel.map fs.resolve)) =
        (sel.map fs.resolve).any fun s =>
          (fs.resolve file == s ||
            (fs.isDir s && (s.isPrefixOf (fs.resolve file) && s != fs.resolve file))) := by
      simp [file_is_allowed_pro, hne2]
    rw [hrw, List.any_map, List.any_eq_true]
    constructor
    · rintro ⟨s, hs, hpred⟩
      refine ⟨s, hs, ?_⟩
      simp only [Function.comp, Bool.or_eq_true, beq_iff_eq, Bool.and_eq_true,
        List.isPrefixOf_iff_prefix, bne_iff_ne, ne_eq] at hpred
      rcases hpred with h1 | ⟨h2, h3, h4⟩
      · exact Or.inl h1.symm
      · exact Or.inr ⟨h2, h3, h4⟩
    · rintro ⟨s, hs, hpred⟩
      refine ⟨s, hs, ?_⟩
      simp only [Function.comp, Bool.or_eq_true, beq_iff_eq, Bool.and_eq_true,
        List.isPrefixOf_iff_prefix, bne_iff_ne, ne_eq]
      rcases hpred with h1 | ⟨h2, h3, h4⟩
      · exact Or.inl h1.symm
      · exact Or.inr ⟨h2, h3, h4⟩

/-- Witness for `c1_inclusion_test`: with an identity filesystem view,
the file `/sub/b.txt` is accepted under the non-empty selection
`{/sub}`. -/
theorem c1_inclusion_test_witness :
    file_is_allowed_gui demoFS ["sub", "b.txt"] (some [["sub"]]) = true :=
  (((c1_inclusion_test demoFS ["sub", "b.txt"]).2.2.2.2 [["sub"]]
      (by decide)).1).mpr (by decide)

/-- C10: for non-empty selections, enlarging the selection set can only
enlarge the set of accepted files, in both variants (the membership test
is an existential sweep over the selection). -/
theorem c10_selection_monotone (fs : FSView) (file : List String)
    (S T : List (List String)) (hS : S ≠ []) (hT : T ≠ [])
    (hsub : ∀ x ∈ S, x ∈ T) :
    (file_is_allowed_gui fs file (some S) = true →
      file_is_allowed_gui fs file (some T) = true) ∧
    (file_is_allowed_pro fs file (some S) = true →
      file_is_allowed_pro fs file (some T) = true) := by
  have hSe : S.isEmpty = false := by
    cases S with
    | nil => exact absurd rfl hS
    | cons a l => rfl
  have hTe : T.isEmpty = false := by
    cases T with
    | nil => exact absurd rfl hT
    | cons a l => rfl
  constructor
  · intro h
    have h' := h
    simp only [file_is_allowed_gui, hSe, Bool.false_eq_true, if_false] at h'
    rw [List.any_eq_true] at h'
    obtain ⟨s, hs, hp⟩ := h'
    have h2 : (T.any fun s =>
        (fs.resolve file == fs.resolve s ||
          (fs.isDir (fs.resolve s) && (fs.resolve s).isPrefixOf (fs.resolve file)))) = true :=
      List.any_eq_true.mpr ⟨s, hsub s hs, hp⟩
    simpa [file_is_allowed_gui, hTe] using h2
  · intro h
    have h' := h
    simp only [file_is_allowed_pro, hSe, Bool.false_eq_true, if_false] at h'
    rw [List.any_eq_true] at h'
    obtain ⟨s, hs, hp⟩ := h'
    have h2 : (T.any fun s =>
        (fs.resolve file == s ||
          (fs.isDir s && (s.isPrefixOf (fs.resolve file) && s != fs.resolve file)))) = true :=
      List.any_eq_true.mpr ⟨s, hsub s hs, hp⟩
    simpa [file_is_allowed_pro, hTe] using h2

/-- Witness for `c10_selection_monotone` at a concrete superset pair. -/
theorem c10_selection_monotone_witness :
    file_is_allowed_gui demoFS ["sub", "b.txt"] (some [["sub"], ["x"]]) = true :=
  (c10_selection_monotone demoFS ["sub", "b.txt"] [["sub"]] [["sub"], ["x"]]
    (by decide) (by decide) (by decide)).1 (by decide)

/-- C3: `"*"`, `""` and `"todos"` all parse to "convert everything"; a
spec that parses to rule sets accepts a path exactly when its extension
is outside the exclude set and the include set is empty or contains it
(exclusion wins); and `".py,.md,!pdf"` accepts `a.py` and `b.md` while
rejecting `c.pdf` and `d.txt`. -/
theorem c3_filter_spec :
    parse_exts "*" = none ∧ parse_exts "" = none ∧ parse_exts "todos" = none ∧
    (∀ (spec : String) (inc exc : List String), parse_exts spec = some (inc, exc) →
      ∀ path : String,
        (should_convert (some (inc, exc)) path = true ↔
          pyLower (pySuffix path) ∉ exc ∧
            (inc = [] ∨ pyLower (pySuffix path) ∈ inc))) ∧
    should_convert (parse_exts ".py,.md,!pdf") "a.py" = true ∧
    should_convert (parse_exts ".py,.md,!pdf") "b.md" = true ∧
    should_convert (parse_exts ".py,.md,!pdf") "c.pdf" = false ∧
    should_convert (parse_exts ".py,.md,!pdf") "d.txt" = false := by
  refine ⟨by decide, by decide, by decide, ?_, by decide, by decide, by decide, by decide⟩
  intro spec inc exc _ path
  simp only [should_convert]
  split_ifs with h1 h2 <;> simp <;> tauto

/-- Witness for the general clause of `c3_filter_spec` at the parsed form
of `".py,.md,!pdf"` and the path `a.py`. -/
theorem c3_filter_spec_witness :
    should_convert (some ([".py", ".md"], [".pdf"])) "a.py" = true :=
  ((c3_filter_spec.2.2.2.1 ".py,.md,!pdf" [".py", ".md"] [".pdf"] (by decide)) "a.py").mpr
    (by decide)

/-- C6 counterexample: when even the fallback read raises (I/O error),
`read_text_file` of `convertidor_gui.py` returns the empty line list, not
a single sentinel line; only the pro variant produces the sentinel. -/
theorem c6_gui_no_sentinel_counterexample :
    read_text_file_gui ⟨none⟩ = [] ∧
    read_text_file_pro ⟨none⟩ = ["[ERROR: No se pudo leer el archivo]\n"] ∧
    ([] : List String).length ≠ 1 :=
  ⟨rfl, rfl, by decide⟩

/-- C6 (amended): reading is total in both variants — strict UTF-8 first;
on decode failure the Latin-1 fallback, which accepts every byte
sequence; and on an I/O error the pro variant yields the single sentinel
line while the gui variant yields the empty list. -/
theorem c6_read_policy_amended (f : FileOnDisk) :
    (∀ bs cs, f.bytes = some bs → utf8Decode bs = some cs →
      read_text_file_gui f = pyTextLines cs ∧
      read_text_file_pro f = pyTextLines cs) ∧
    (∀ bs, f.bytes = some bs → utf8Decode bs = none →
      read_text_file_gui f = pyTextLines (latin1Decode bs) ∧
      read_text_file_pro f = pyTextLines (latin1Decode bs)) ∧
    (f.bytes = none →
      read_text_file_gui f = [] ∧
      read_text_file_pro f = ["[ERROR: No se pudo leer el archivo]\n"]) := by
  obtain ⟨b⟩ := f
  refine ⟨?_, ?_, ?_⟩
  · intro bs cs hb hd
    cases b with
    | none => cases hb
    | some bs' =>
      obtain rfl : bs' = bs := by injection hb
      simp [read_text_file_gui, read_text_file_pro, hd]
  · intro bs hb hd
    cases b with
    | none => cases hb
    | some bs' =>
      obtain rfl : bs' = bs := by injection hb
      simp [read_text_file_gui, read_text_file_pro, hd]
  · intro hb
    cases b with
    | none => exact ⟨rfl, rfl⟩
    | some bs' => cases hb

/-- Witness for `c6_read_policy_amended`: the byte `0xFF` is invalid
UTF-8, so both variants fall back to its Latin-1 decoding. -/
theorem c6_read_policy_amended_witness :
    read_text_file_pro ⟨some [255]⟩ = pyTextLines (latin1Decode [255]) :=
  ((c6_read_policy_amended ⟨some [255]⟩).2.1 [255] rfl rfl).2

/-- C7 counterexample: `scan_project` of `convertidor_gui_pro.py` performs
no binary detection — a file that the gui variant's heuristic classifies
as binary (unknown extension, first bytes not valid UTF-8) still has its
Latin-1-decoded bytes recorded as its content, not a placeholder line. -/
theorem c7_pro_embeds_binary_counterexample :
    is_text_file "x.bin" ⟨some [0, 255, 254]⟩ = false ∧
    pro_scan_lines ⟨some [0, 255, 254]⟩ =
      [String.mk [Char.ofNat 0, Char.ofNat 255, Char.ofNat 254]] ∧
    pro_scan_lines ⟨some [0, 255, 254]⟩ ≠ ["[BINARY FILE OMITTED: x.bin]\n"] := by
  refine ⟨by decide, by decide, by decide⟩

/-- C7 (amended): in the gui variant every file failing `is_text_file`
gets exactly the placeholder line and every file passing it gets its read
text, with `is_text_file` holding exactly for known text extensions or a
UTF-8-decodable 1024-byte prefix; the pro variant records the §4.4 read
text for every file, with no binary detection. -/
theorem c7_binary_placeholder_amended (name : String) (f : FileOnDisk) :
    (is_text_file name f = false →
      gui_scan_lines name f = ["[BINARY FILE OMITTED: " ++ name ++ "]\n"]) ∧
    (is_text_file name f = true → gui_scan_lines name f = read_text_file_gui f) ∧
    (is_text_file name f = true ↔
      pyLower (pySuffix name) ∈ TEXT_EXTS ∨
        ∃ bs, f.bytes = some bs ∧ (utf8Decode (bs.take 1024)).isSome = true) ∧
    pro_scan_lines f = read_text_file_pro f := by
  refine ⟨?_, ?_, ?_, rfl⟩
  · intro h
    simp [gui_scan_lines, h]
  · intro h
    simp [gui_scan_lines, h]
  · simp only [is_text_file]
    split_ifs with hext
    · simp [hext]
    · cases hb : f.bytes with
      | none => simp [hext, hb]
      | some bs => simp [hext, hb]

/-- Witness for `c7_binary_placeholder_amended`: the binary-looking file
gets the placeholder in the gui variant. -/
theorem c7_binary_placeholder_amended_witness :
    gui_scan_lines "x.bin" ⟨some [0, 255, 254]⟩ = ["[BINARY FILE OMITTED: x.bin]\n"] :=
  (c7_binary_placeholder_amended "x.bin" ⟨some [0, 255, 254]⟩).1 (by decide)

/-- C8: the row export emits the header row `path, line_no, content`
first, then exactly one row per source line of each content entry (the
gui variant's `export_csv` takes no filter argument, so every entry
passes), numbered from 1, with the line's trailing newline stripped; a
single 3-line file yields the header plus exactly 3 data rows. -/
theorem c8_csv_rows :
    (∀ files : List (String × List String),
      (export_csv_rows files).head? = some ["path", "line_no", "content"]) ∧
    (∀ files : List (String × List String),
      (export_csv_rows files).length = 1 + (files.map fun pr => pr.2.length).sum) ∧
    (∀ (p : String) (lines : List String) (i : Nat) (h : i < lines.length),
      (export_csv_rows [(p, lines)]).get? (i + 1) =
        some [p, toString (i + 1), rstripNl (lines.get ⟨i, h⟩)]) ∧
    export_csv_rows [("f.txt", ["uno\n", "dos\n", "tres"])] =
      [["path", "line_no", "content"], ["f.txt", "1", "uno"],
       ["f.txt", "2", "dos"], ["f.txt", "3", "tres"]] := by
  refine ⟨?_, ?_, ?_, by decide⟩
  · intro files
    simp [export_csv_rows]
  · intro files
    simp only [export_csv_rows, List.length_cons, List.length_flatMap]
    rw [Nat.add_comm]
    congr 1
    apply congrArg List.sum
    apply List.map_congr_left
    intro pr _
    simp [Function.comp, List.enumFrom_length]
  · intro p lines i h
    have hsingle : export_csv_rows [(p, lines)] =
        ["path", "line_no", "content"] ::
          (lines.enumFrom 1).map fun iln => [p, toString iln.1, rstripNl iln.2] := by
      simp [export_csv_rows]
    rw [hsingle, List.get?_cons_succ, List.get?_map, List.get?_enumFrom,
      List.get?_eq_get h]
    simp [Nat.add_comm]

/-- Witness for `c8_csv_rows` at the first data row of the 3-line file. -/
theorem c8_csv_rows_witness :
    (export_csv_rows [("f.txt", ["uno\n", "dos\n", "tres"])]).get? 1 =
      some ["f.txt", "1", "uno"] := by
  have h := c8_csv_rows.2.2.1 "f.txt" ["uno\n", "dos\n", "tres"] 0 (by decide)
  rw [h]
  decide

/-- C9 counterexample: in `convertidor_gui_pro.py`, a PDF export request
does not fail with a configuration error at all — regardless of whether
fpdf2 is importable, `_convert` logs that PDF is unimplemented, writes a
plain-text backup `<name>.txt`, and ends with the success message. -/
theorem c9_pro_pdf_no_error_counterexample :
    ((pro_convert .pdf "listado" (Arbol.mk [] []) [("a.txt", ["hola\n"])]
        none).terminal.1 = "showinfo") ∧
    ((pro_convert .pdf "listado" (Arbol.mk [] []) [("a.txt", ["hola\n"])]
        none).written.map Prod.fst = ["listado.txt"]) ∧
    ((pro_convert .pdf "listado" (Arbol.mk [] []) [("a.txt", ["hola\n"])]
        none).avisos =
      ["AVISO: La exportación a PDF no está implementada.",
       "-> Generando un archivo TXT de respaldo."]) :=
  ⟨rfl, rfl, rfl⟩

/-- C9 (amended): in the gui variant, requesting PDF with fpdf2
unavailable raises the single labelled `RuntimeError` before any page or
file is produced (no document is ever returned); in the pro variant PDF
export is unimplemented — the request writes a plain-text backup and
reports success instead of failing. -/
theorem c9_pdf_unavailable_amended :
    (∀ (base : String) (arbol : Arbol) (files : List (String × List String)),
      export_pdf false base arbol files =
        Except.error "Instala primero fpdf2 →  python -m pip install fpdf2") ∧
    (∀ (base : String) (arbol : Arbol) (files : List (String × List String))
        (doc : List (List String)),
      export_pdf false base arbol files ≠ Except.ok doc) ∧
    (∀ (name : String) (arbol : Arbol) (files : List (String × List String))
        (filt : Option (List String × List String)), files ≠ [] →
      (pro_convert .pdf name arbol files filt).terminal.1 = "showinfo" ∧
      (pro_convert .pdf name arbol files filt).written.map Prod.fst =
        [name ++ ".txt"]) := by
  refine ⟨?_, ?_, ?_⟩
  · intro base arbol files
    rfl
  · intro base arbol files doc h
    cases h
  · intro name arbol files filt hne
    have hempty : files.isEmpty = false := by
      cases files with
      | nil => exact absurd rfl hne
      | cons a l => rfl
    constructor <;> simp [pro_convert, hempty]

/-- Witness for `c9_pdf_unavailable_amended` at a one-file scan. -/
theorem c9_pdf_unavailable_amended_witness :
    (pro_convert .pdf "n" (Arbol.mk [] []) [("a.txt", [])] none).written.map
      Prod.fst = ["n.txt"] :=
  (c9_pdf_unavailable_amended.2.2 "n" (Arbol.mk [] []) [("a.txt", [])] none
    (by decide)).2

/-! ## Index-tree lemmas for the scan theorems -/

theorem lookupDir_updateDirs (d d' : String) (rest : List String) (name : String)
    (ks : List (String × Arbol)) :
    lookupDir d' (updateDirs d rest name ks) =
      (if d' = d then
        some (insertPath rest name ((lookupDir d ks).getD (.mk [] [])))
      else lookupDir d' ks) := by
  induction ks with
  | nil =>
    by_cases h : d' = d
    · subst h
      simp [updateDirs, lookupDir]
    · have hne : ¬ d = d' := fun hh => h hh.symm
      simp [updateDirs, lookupDir, h, hne]
  | cons kt ks ih =>
    obtain ⟨k, t⟩ := kt
    by_cases hk : k = d
    · subst hk
      have hstep : updateDirs k rest name ((k, t) :: ks) =
          (k, insertPath rest name t) :: ks := by
        simp [updateDirs]
      rw [hstep]
      by_cases hd : d' = k
      · subst hd
        simp [lookupDir]
      · have hne : ¬ k = d' := fun hh => hd hh.symm
        simp [lookupDir, hd, hne]
    · have hstep : updateDirs d rest name ((k, t) :: ks) =
          (k, t) :: updateDirs d rest name ks := by
        simp [updateDirs, hk]
      rw [hstep]
      by_cases hd : d' = k
      · subst hd
        have hne : ¬ d' = d := fun hh => hk (hh.symm ▸ rfl)
        simp [lookupDir, hne]
      · have hne : ¬ k = d' := fun hh => hd hh.symm
        have h1 : lookupDir d' ((k, t) :: updateDirs d rest name ks) =
            lookupDir d' (updateDirs d rest name ks) := by
          simp [lookupDir, hne]
        have h2 : lookupDir d' ((k, t) :: ks) = lookupDir d' ks := by
          simp [lookupDir, hne]
        have h3 : lookupDir d ((k, t) :: ks) = lookupDir d ks := by
          simp [lookupDir, hk]
        rw [h1, h2, h3, ih]

theorem memFile_empty (p : List String) (n : String) :
    memFile p n (.mk [] []) = false := by
  cases p <;> simp [memFile, lookupDir]

theorem memFile_insert_self (p : List String) (n : String) (t : Arbol) :
    memFile p n (insertPath p n t) = true := by
  induction p generalizing t with
  | nil =>
    cases t with
    | mk ds fs => simp [insertPath, memFile]
  | cons d rest ih =>
    cases t with
    | mk ds fs =>
      have hstep : insertPath (d :: rest) n (.mk ds fs) =
          .mk (updateDirs d rest n ds) fs := by
        simp [insertPath]
      rw [hstep]
      simp [memFile, lookupDir_updateDirs, ih]

theorem memFile_insert_preserve (p' : List String) (n' : String) :
    ∀ (p : List String) (n : String) (t : Arbol),
      memFile p' n' t = true → memFile p' n' (insertPath p n t) = true := by
  induction p' with
  | nil =>
    intro p n t h
    cases t with
    | mk ds fs =>
      cases p with
      | nil =>
        simp [insertPath, memFile] at h ⊢
        exact Or.inl h
      | cons d rest =>
        simp [insertPath, memFile] at h ⊢
        exact h
  | cons d' r' ih =>
    intro p n t h
    cases t with
    | mk ds fs =>
      cases p with
      | nil =>
        simp [insertPath, memFile] at h ⊢
        exact h
      | cons d rest =>
        have hstep : insertPath (d :: rest) n (.mk ds fs) =
            .mk (updateDirs d rest n ds) fs := by
          simp [insertPath]
        rw [hstep]
        cases hl : lookupDir d' ds with
        | none => simp [memFile, hl] at h
        | some t' =>
          have hmem : memFile r' n' t' = true := by
            simpa [memFile, hl] using h
          by_cases hd : d' = d
          · subst hd
            simp [memFile, lookupDir_updateDirs, hl, ih rest n t' hmem]
          · simp [memFile, lookupDir_updateDirs, hd, hl, hmem]

theorem memFile_insert_elim (p' : List String) (n' : String) :
    ∀ (p : List String) (n : String) (t : Arbol),
      memFile p' n' (insertPath p n t) = true →
      memFile p' n' t = true ∨ (p' = p ∧ n' = n) := by
  induction p' with
  | nil =>
    intro p n t h
    cases t with
    | mk ds fs =>
      cases p with
      | nil =>
        simp only [insertPath, memFile, List.mem_append, List.mem_singleton,
          decide_eq_true_eq] at h
        rcases h with h | h
        · exact Or.inl (by simp [memFile, h])
        · exact Or.inr ⟨rfl, h⟩
      | cons d rest =>
        have h2 : memFile ([] : List String) n' (Arbol.mk ds fs) = true := by
          simpa [insertPath, memFile] using h
        exact Or.inl h2
  | cons d' r' ih =>
    intro p n t h
    cases t with
    | mk ds fs =>
      cases p with
      | nil =>
        have h2 : memFile (d' :: r') n' (Arbol.mk ds fs) = true := by
          simpa [insertPath, memFile] using h
        exact Or.inl h2
      | cons d rest =>
        have hstep : insertPath (d :: rest) n (.mk ds fs) =
            .mk (updateDirs d rest n ds) fs := by
          simp [insertPath]
        rw [hstep] at h
        by_cases hd : d' = d
        · subst hd
          have h2 : memFile r' n'
              (insertPath rest n ((lookupDir d' ds).getD (.mk [] []))) = true := by
            simpa [memFile, lookupDir_updateDirs] using h
          cases hl : lookupDir d' ds with
          | none =>
            rw [hl, Option.getD_none] at h2
            rcases ih rest n _ h2 with h3 | h3
            · rw [memFile_empty] at h3
              exact absurd h3 (by simp)
            · exact Or.inr ⟨by rw [h3.1], h3.2⟩
          | some t' =>
            rw [hl, Option.getD_some] at h2
            rcases ih rest n t' h2 with h3 | h3
            · exact Or.inl (by simp [memFile, hl, h3])
            · exact Or.inr ⟨by rw [h3.1], h3.2⟩
        · have h2 : memFile (d' :: r') n' (.mk ds fs) = true := by
            simpa [memFile, lookupDir_updateDirs, hd] using h
          exact Or.inl h2

/-! ## Scan lemmas -/

theorem scanStep_eq (sel : Option (List (List String))) (pats : List String)
    (gh : Bool) (acc : Arbol × List ContentEntry) (e : ScanEntry) :
    scanStep sel pats gh acc e =
      (if isIgnored e.1 e.2.1 pats then acc
       else if ¬ allowedRel sel (e.1 ++ [e.2.1]) ∧ ¬ gh then acc
       else
         (insertPath e.1 e.2.1 acc.1,
          if allowedRel sel (e.1 ++ [e.2.1]) then
            acc.2 ++ [(e.1, e.2.1, read_text_file_pro e.2.2)]
          else acc.2)) := by
  obtain ⟨edirs, ename, ef⟩ := e
  simp only [scanStep]
  split_ifs <;> rfl

theorem scanGo_preserves_memFile (sel : Option (List (List String)))
    (pats : List String) (gh : Bool) (dirs : List String) (name : String) :
    ∀ (es : List ScanEntry) (acc : Arbol × List ContentEntry),
      memFile dirs name acc.1 = true →
      memFile dirs name (scanSpecGo sel pats gh acc es).1 = true := by
  intro es
  induction es with
  | nil =>
    intro acc h
    simpa [scanSpecGo] using h
  | cons e rest ih =>
    intro acc h
    simp only [scanSpecGo]
    apply ih
    rw [scanStep_eq]
    split_ifs with h1 h2 h3
    · exact h
    · exact h
    · exact memFile_insert_preserve dirs name e.1 e.2.1 acc.1 h
    · exact memFile_insert_preserve dirs name e.1 e.2.1 acc.1 h

theorem scanGo_ignored_excluded (sel : Option (List (List String)))
    (pats : List String) (gh : Bool) (dirs : List String) (name : String)
    (hign : isIgnored dirs name pats = true) :
    ∀ (es : List ScanEntry) (acc : Arbol × List ContentEntry),
      memFile dirs name acc.1 = false →
      (∀ ls, (dirs, name, ls) ∉ acc.2) →
      memFile dirs name (scanSpecGo sel pats gh acc es).1 = false ∧
      (∀ ls, (dirs, name, ls) ∉ (scanSpecGo sel pats gh acc es).2) := by
  intro es
  induction es with
  | nil =>
    intro acc h1 h2
    simp only [scanSpecGo]
    exact ⟨h1, h2⟩
  | cons e rest ih =>
    intro acc h1 h2
    simp only [scanSpecGo]
    have hins : memFile dirs name (insertPath e.1 e.2.1 acc.1) = false ∨
        isIgnored e.1 e.2.1 pats = true := by
      cases hmem : memFile dirs name (insertPath e.1 e.2.1 acc.1) with
      | false => exact Or.inl rfl
      | true =>
        rcases memFile_insert_elim dirs name e.1 e.2.1 acc.1 hmem with h3 | h3
        · exact absurd h3 (by simp [h1])
        · refine Or.inr ?_
          rw [← h3.1, ← h3.2]
          exact hign
    apply ih
    · rw [scanStep_eq]
      split_ifs with hig hsk hsel
      · exact h1
      · exact h1
      · show memFile dirs name (insertPath e.1 e.2.1 acc.1) = false
        rcases hins with h | h
        · exact h
        · exact absurd h (by simpa using hig)
      · show memFile dirs name (insertPath e.1 e.2.1 acc.1) = false
        rcases hins with h | h
        · exact h
        · exact absurd h (by simpa using hig)
    · intro ls
      rw [scanStep_eq]
      split_ifs with hig hsk hsel
      · exact h2 ls
      · exact h2 ls
      · show (dirs, name, ls) ∉ acc.2 ++ [(e.1, e.2.1, read_text_file_pro e.2.2)]
        intro hmem
        rcases List.mem_append.mp hmem with hm | hm
        · exact h2 ls hm
        · have h5 := List.mem_singleton.mp hm
          have h6 : isIgnored e.1 e.2.1 pats = true := by
            have hd : dirs = e.1 := congrArg Prod.fst h5
            have hn : name = e.2.1 := congrArg (fun x => x.2.1) h5
            rw [← hd, ← hn]
            exact hign
          exact absurd h6 (by simpa using hig)
      · exact h2 ls

theorem scanGo_content (sel : Option (List (List String))) (pats : List String)
    (gh : Bool) (hgh : gh = true) :
    ∀ (es : List ScanEntry) (acc : Arbol × List ContentEntry),
      (scanSpecGo sel pats gh acc es).2 =
        acc.2 ++ es.filterMap fun e =>
          if isIgnored e.1 e.2.1 pats = false ∧
              allowedRel sel (e.1 ++ [e.2.1]) = true then
            some (e.1, e.2.1, read_text_file_pro e.2.2)
          else none := by
  intro es
  induction es with
  | nil =>
    intro acc
    simp [scanSpecGo]
  | cons e rest ih =>
    intro acc
    simp only [scanSpecGo]
    rw [ih, scanStep_eq]
    split_ifs with hig hsk hsel
    · simp [List.filterMap_cons, hig]
    · exact absurd hgh (by simpa using hsk.2)
    · have h1 : isIgnored e.1 e.2.1 pats = false := by
        simpa using hig
      simp [List.filterMap_cons, h1, hsel]
    · have h1 : isIgnored e.1 e.2.1 pats = false := by
        simpa using hig
      have h2 : allowedRel sel (e.1 ++ [e.2.1]) = false := by
        simpa using hsel
      simp [List.filterMap_cons, h1, h2]

theorem scanGo_included_in_tree (sel : Option (List (List String)))
    (pats : List String) (gh : Bool) :
    ∀ (es : List ScanEntry) (acc : Arbol × List ContentEntry) (e : ScanEntry),
      e ∈ es → isIgnored e.1 e.2.1 pats = false →
      (gh = true ∨ allowedRel sel (e.1 ++ [e.2.1]) = true) →
      memFile e.1 e.2.1 (scanSpecGo sel pats gh acc es).1 = true := by
  intro es
  induction es with
  | nil =>
    intro acc e he
    simp at he
  | cons e0 rest ih =>
    intro acc e he hig hga
    rcases List.mem_cons.mp he with rfl | hmem
    · simp only [scanSpecGo]
      apply scanGo_preserves_memFile
      rw [scanStep_eq]
      split_ifs with h1 h2 h3
      · exact absurd h1 (by simp [hig])
      · rcases hga with hg | ha
        · exact absurd hg (by simpa using h2.2)
        · exact absurd ha (by simpa using h2.1)
      · exact memFile_insert_self e.1 e.2.1 acc.1
      · exact memFile_insert_self e.1 e.2.1 acc.1
    · simp only [scanSpecGo]
      exact ih _ e hmem hig hga

/-- C4 (spec-modelled): an entry whose own name or any ancestor directory
name matches an ignore pattern appears neither in the index tree nor in
the content list; concretely, scanning `{a.txt, sub/b.txt,
sub/.git/config}` with the pattern `.git` and no selection restriction
indexes `a.txt` and `sub/b.txt`, never `sub/.git/config`, and yields
exactly two content entries. -/
theorem c4_ignore_scan :
    (∀ (entries : List ScanEntry) (sel : Option (List (List String)))
        (pats : List String) (gh : Bool) (dirs : List String) (name : String)
        (f : FileOnDisk), pats ≠ [] → (dirs, name, f) ∈ entries →
      isIgnored dirs name pats = true →
      memFile dirs name (scanSpec sel pats gh entries).1 = false ∧
      ∀ ls, (dirs, name, ls) ∉ (scanSpec sel pats gh entries).2) ∧
    memFile [] "a.txt"
      (scanSpec none [".git"] true
        [([], "a.txt", ⟨some [97, 10]⟩), (["sub"], "b.txt", ⟨some [98, 10]⟩),
         (["sub", ".git"], "config", ⟨some [99, 10]⟩)]).1 = true ∧
    memFile ["sub"] "b.txt"
      (scanSpec none [".git"] true
        [([], "a.txt", ⟨some [97, 10]⟩), (["sub"], "b.txt", ⟨some [98, 10]⟩),
         (["sub", ".git"], "config", ⟨some [99, 10]⟩)]).1 = true ∧
    memFile ["sub", ".git"] "config"
      (scanSpec none [".git"] true
        [([], "a.txt", ⟨some [97, 10]⟩), (["sub"], "b.txt", ⟨some [98, 10]⟩),
         (["sub", ".git"], "config", ⟨some [99, 10]⟩)]).1 = false ∧
    (scanSpec none [".git"] true
        [([], "a.txt", ⟨some [97, 10]⟩), (["sub"], "b.txt", ⟨some [98, 10]⟩),
         (["sub", ".git"], "config", ⟨some [99, 10]⟩)]).2.length = 2 := by
  refine ⟨?_, ?_, ?_, ?_, ?_⟩
  · intro entries sel pats gh dirs name f _ _ hig
    exact scanGo_ignored_excluded sel pats gh dirs name hig entries
      (.mk [] [], []) (memFile_empty dirs name) (by intro ls h; simp at h)
  · exact scanGo_included_in_tree none [".git"] true _ (.mk [] [], [])
      ([], "a.txt", ⟨some [97, 10]⟩) (by simp) (by decide) (Or.inl rfl)
  · exact scanGo_included_in_tree none [".git"] true _ (.mk [] [], [])
      (["sub"], "b.txt", ⟨some [98, 10]⟩) (by simp) (by decide) (Or.inl rfl)
  · exact (scanGo_ignored_excluded none [".git"] true ["sub", ".git"] "config"
      (by decide) _ (.mk [] [], []) (memFile_empty _ _)
      (by intro ls h; simp at h)).1
  · show ((scanSpecGo none [".git"] true (.mk [] [], [])
        [([], "a.txt", ⟨some [97, 10]⟩), (["sub"], "b.txt", ⟨some [98, 10]⟩),
         (["sub", ".git"], "config", ⟨some [99, 10]⟩)]).2).length = 2
    rw [scanGo_content none [".git"] true rfl]
    decide

/-- Witness for the universal clause of `c4_ignore_scan` at the concrete
ignored entry `sub/.git/config`. -/
theorem c4_ignore_scan_witness :
    memFile ["sub", ".git"] "config"
      (scanSpec none [".git"] true
        [([], "a.txt", ⟨some [97, 10]⟩), (["sub"], "b.txt", ⟨some [98, 10]⟩),
         (["sub", ".git"], "config", ⟨some [99, 10]⟩)]).1 = false :=
  (c4_ignore_scan.1
    [([], "a.txt", ⟨some [97, 10]⟩), (["sub"], "b.txt", ⟨some [98, 10]⟩),
     (["sub", ".git"], "config", ⟨some [99, 10]⟩)]
    none [".git"] true ["sub", ".git"] "config" ⟨some [99, 10]⟩
    (by decide) (by simp) (by decide)).1

/-- C5 (spec-modelled): with a non-empty selection and ghosts enabled,
every non-ignored entry is indexed while exactly the selected entries
become content; concretely, scanning `{a.txt, sub/b.txt}` with selection
`{sub}` and `includeGhosts=true` still indexes `a.txt` but yields only
`sub/b.txt` as a content entry. -/
theorem c5_ghost_scan :
    (∀ (entries : List ScanEntry) (sel : List (List String)) (pats : List String),
      sel ≠ [] →
      (∀ (dirs : List String) (name : String) (f : FileOnDisk),
        (dirs, name, f) ∈ entries → isIgnored dirs name pats = false →
        memFile dirs name (scanSpec (some sel) pats true entries).1 = true) ∧
      (scanSpec (some sel) pats true entries).2 =
        entries.filterMap fun e =>
          if isIgnored e.1 e.2.1 pats = false ∧
              allowedRel (some sel) (e.1 ++ [e.2.1]) = true then
            some (e.1, e.2.1, read_text_file_pro e.2.2)
          else none) ∧
    memFile [] "a.txt"
      (scanSpec (some [["sub"]]) [] true
        [([], "a.txt", ⟨some [97, 10]⟩), (["sub"], "b.txt", ⟨some [98, 10]⟩)]).1 =
      true ∧
    ((scanSpec (some [["sub"]]) [] true
        [([], "a.txt", ⟨some [97, 10]⟩),
         (["sub"], "b.txt", ⟨some [98, 10]⟩)]).2.map fun c => (c.1, c.2.1)) =
      [(["sub"], "b.txt")] := by
  refine ⟨?_, ?_, ?_⟩
  · intro entries sel pats _
    constructor
    · intro dirs name f hmem hig
      exact scanGo_included_in_tree (some sel) pats true entries (.mk [] [], [])
        (dirs, name, f) hmem hig (Or.inl rfl)
    · have h := scanGo_content (some sel) pats true rfl entries (.mk [] [], [])
      simpa using h
  · exact scanGo_included_in_tree (some [["sub"]]) [] true _ (.mk [] [], [])
      ([], "a.txt", ⟨some [97, 10]⟩) (by simp) (by decide) (Or.inl rfl)
  · show ((scanSpecGo (some [["sub"]]) [] true (.mk [] [], [])
        [([], "a.txt", ⟨some [97, 10]⟩),
         (["sub"], "b.txt", ⟨some [98, 10]⟩)]).2.map fun c => (c.1, c.2.1)) =
      [(["sub"], "b.txt")]
    rw [scanGo_content (some [["sub"]]) [] true rfl]
    decide

/-- Witness for `c5_ghost_scan` at the ghost entry `a.txt`. -/
theorem c5_ghost_scan_witness :
    memFile [] "a.txt"
      (scanSpec (some [["sub"]]) [] true
        [([], "a.txt", ⟨some [97, 10]⟩), (["sub"], "b.txt", ⟨some [98, 10]⟩)]).1 =
      true :=
  (c5_ghost_scan.1
    [([], "a.txt", ⟨some [97, 10]⟩), (["sub"], "b.txt", ⟨some [98, 10]⟩)]
    [["sub"]] [] (by decide)).1 [] "a.txt" ⟨some [97, 10]⟩ (by simp) (by decide)
